import Mathlib

/-!
Shallow embedding of the NIP-90 DVM scanner aggregation core
(src/scanner.py, function scan_for_dvms, lines 110-230, plus the
persistence helpers save_vendor_data / load_existing_data).

Modelling conventions:
* A vendor identity (hex pubkey) is a `String`; the registry (the Python
  `vendors` dict) is an association list `List (String × VendorRecord)`
  preserving insertion order, with Python dict semantics for lookup
  (`findVendor`) and assignment (`setVendor`: update in place, else append).
* Timestamps produced by `datetime.now().isoformat()` are modelled as a
  single `Nat` clock reading `now` passed explicitly to each per-event merge
  (the code reads the wall clock several times within one event; those
  readings are collapsed into one, which no claim distinguishes).
* Event content is a `List Char` (a Python string is a sequence of code
  points; `content[:500]` is `List.take 500`).
* A malformed event is one whose `author()` accessor raises; it is modelled
  by `author = none`.  Dict keys that the code adds only on some paths
  (`last_seen`, `results`, `request_count`) are `Option` fields, `none`
  meaning the key is absent.
-/

namespace NIP90Scan

/-- One entry of a vendor's services list: the dict
`{"id": service_id, "type": "unknown"}` built at scanner.py:142. -/
structure ServiceDescriptor where
  id : String
  type : String
deriving DecidableEq, Repr

/-- The announcement_data dict built at scanner.py:123-129. -/
structure AnnouncementData where
  event_id : String
  created_at : Nat
  content : List Char
  tags : List (List String)
  discovered_at : Nat
deriving DecidableEq, Repr

/-- The result_data dict built at scanner.py:176-182 (content already
truncated to 500 code points when stored). -/
structure ResultData where
  event_id : String
  kind : Nat
  created_at : Nat
  content : List Char
  discovered_at : Nat
deriving DecidableEq, Repr

/-- One vendor record: the per-pubkey dict of the `vendors` mapping.
`last_seen`, `results` and `request_count` are keys the code adds only on
some paths, hence `Option`. -/
structure VendorRecord where
  pubkey : String
  npub : String
  first_seen : Nat
  announcements : List AnnouncementData
  services : List ServiceDescriptor
  last_seen : Option Nat
  results : Option (List ResultData)
  request_count : Option Nat
deriving DecidableEq, Repr

/-- The `vendors` dict: insertion-ordered mapping from hex pubkey to record. -/
abbrev Registry := List (String × VendorRecord)

/-- A fetched Nostr event, as the narrow interface the scanner consumes:
author (none models a malformed event whose author() raises), the bech32
encoding of the author, id, created_at seconds, content, kind, tags. -/
structure Event where
  author : Option String
  npub : String
  id : String
  created_at : Nat
  content : List Char
  kind : Nat
  tags : List (List String)
deriving DecidableEq, Repr

/-- Python dict lookup `vendors[k]` / `k in vendors` (first binding wins). -/
def findVendor : Registry → String → Option VendorRecord
  | [], _ => none
  | (k', v') :: rest, k => if k' = k then some v' else findVendor rest k

/-- Python dict assignment `vendors[k] = v`: replace the first binding of
`k` in place, or append a new binding at the end. -/
def setVendor : Registry → String → VendorRecord → Registry
  | [], k, v => [(k, v)]
  | (k', v') :: rest, k, v =>
      if k' = k then (k, v) :: rest else (k', v') :: setVendor rest k v

/-- The key sequence of the registry (Python dict key order). -/
def keysOf (st : Registry) : List String := st.map Prod.fst

/-- Service extraction for one tag (scanner.py:135-145): a tag
["d", service_id, ...] appends {id, type:"unknown"} if no existing service
has that id; a ["k", ...] tag is only logged; everything else is ignored. -/
def addService (ss : List ServiceDescriptor) (tag : List String) :
    List ServiceDescriptor :=
  match tag with
  | name :: value :: _ =>
      if name = "d" then
        if value ∈ ss.map (fun s => s.id) then ss
        else ss ++ [⟨value, "unknown"⟩]
      else ss
  | _ => ss

/-- The full tag scan of one announcement event (the for-loop at
scanner.py:135). -/
def addServices (ss : List ServiceDescriptor) (tags : List (List String)) :
    List ServiceDescriptor :=
  tags.foldl addService ss

/-- The announcement_data dict built from an event at scanner.py:123-129. -/
def annObservation (e : Event) (now : Nat) : AnnouncementData :=
  { event_id := e.id
    created_at := e.created_at
    content := e.content
    tags := e.tags
    discovered_at := now }

/-- The fresh record created at scanner.py:114-121 when an announcement
arrives from an unknown pubkey: no last_seen, results or request_count key. -/
def freshAnnouncementVendor (e : Event) (pubkey : String) (now : Nat) :
    VendorRecord :=
  { pubkey := pubkey
    npub := e.npub
    first_seen := now
    announcements := []
    services := []
    last_seen := none
    results := none
    request_count := none }

/-- Processing of one announcement event, scanner.py:110-150: on a malformed
event (author() raises) the per-event try/except leaves the registry
unchanged; otherwise create the record if absent, append the announcement
observation, overwrite last_seen with the clock reading, then scan tags for
services. -/
def mergeAnnouncement (vendors : Registry) (e : Event) (now : Nat) :
    Registry :=
  match e.author with
  | none => vendors
  | some pubkey =>
      let v0 := match findVendor vendors pubkey with
        | some v => v
        | none => freshAnnouncementVendor e pubkey now
      let v1 := { v0 with
        announcements := v0.announcements ++ [annObservation e now]
        last_seen := some now }
      let v2 := { v1 with services := addServices v1.services e.tags }
      setVendor vendors pubkey v2

/-- The announcement batch loop (scanner.py:110): the try/except sits inside
the loop, so a malformed event is skipped and the remaining events of the
batch are still processed. -/
def processAnnouncementBatch (vendors : Registry) (events : List Event)
    (now : Nat) : Registry :=
  match events with
  | [] => vendors
  | e :: es => processAnnouncementBatch (mergeAnnouncement vendors e now) es now

/-- The result_data dict built at scanner.py:176-182; the content is
truncated to 500 code points. -/
def resultObservation (e : Event) (now : Nat) : ResultData :=
  { event_id := e.id
    kind := e.kind
    created_at := e.created_at
    content := e.content.take 500
    discovered_at := now }

/-- The fresh record created at scanner.py:163-171 when a result arrives from
an unknown pubkey: unlike the announcement-phase record it carries an empty
results list. -/
def freshResultVendor (e : Event) (pubkey : String) (now : Nat) :
    VendorRecord :=
  { pubkey := pubkey
    npub := e.npub
    first_seen := now
    announcements := []
    services := []
    last_seen := none
    results := some []
    request_count := none }

/-- Processing of one result event whose author resolved to `pubkey`,
scanner.py:160-187: create the record if absent, add the results key if
missing, append the truncated observation, overwrite last_seen. -/
def mergeResult (vendors : Registry) (e : Event) (pubkey : String)
    (now : Nat) : Registry :=
  let v0 := match findVendor vendors pubkey with
    | some v => v
    | none => freshResultVendor e pubkey now
  let v1 := match v0.results with
    | none => { v0 with results := some [] }
    | some _ => v0
  let v2 := { v1 with
    results := some ((v1.results.getD []) ++ [resultObservation e now])
    last_seen := some now }
  setVendor vendors pubkey v2

/-- The per-filter result batch, scanner.py:154-190: the try/except wraps the
whole event loop, so an event whose author() raises aborts the remainder of
that batch (mutations already applied are kept). -/
def processResultBatch (vendors : Registry) (events : List Event)
    (now : Nat) : Registry :=
  match events with
  | [] => vendors
  | e :: es =>
      match e.author with
      | none => vendors
      | some pk => processResultBatch (mergeResult vendors e pk now) es now

/-- Processing of one tag of a request event, scanner.py:202-209: a tag
["p", target, ...] whose target is already a registry key gets its
request_count initialised to 0 if absent and then incremented; unknown
targets and other tags leave the registry untouched. -/
def countRequestTag (vendors : Registry) (tag : List String) : Registry :=
  match tag with
  | name :: target :: _ =>
      if name = "p" then
        match findVendor vendors target with
        | some v =>
            setVendor vendors target
              { v with request_count := some (v.request_count.getD 0 + 1) }
        | none => vendors
      else vendors
  | _ => vendors

/-- Processing of one request event (the inner loop at scanner.py:200-209):
fold over its tags; the event author is never consulted. -/
def mergeRequest (vendors : Registry) (e : Event) : Registry :=
  e.tags.foldl countRequestTag vendors

/-- The per-filter request batch, scanner.py:194-212. -/
def processRequestBatch (vendors : Registry) (events : List Event) :
    Registry :=
  events.foldl mergeRequest vendors

/-- The announcements count printed by the summary, scanner.py:227. -/
def announcementsShown (v : VendorRecord) : Nat := v.announcements.length

/-- The results count printed by the summary (scanner.py:229): an absent
results key is read as the empty sequence. -/
def resultsShown (v : VendorRecord) : Nat := (v.results.getD []).length

/-- The request count printed by the summary (scanner.py:230): an absent
request_count key is read as 0. -/
def requestCountShown (v : VendorRecord) : Nat := v.request_count.getD 0

/-- last_seen of the record at a key, absent key or absent field both none. -/
def lastSeenOf (st : Registry) (pk : String) : Option Nat :=
  (findVendor st pk).bind (fun v => v.last_seen)

/-- The announcements of the record at a key (empty when absent). -/
def annsOf (st : Registry) (pk : String) : List AnnouncementData :=
  ((findVendor st pk).map (fun v => v.announcements)).getD []

/-- The services of the record at a key (empty when absent). -/
def servicesOf (st : Registry) (pk : String) : List ServiceDescriptor :=
  ((findVendor st pk).map (fun v => v.services)).getD []

/-- Whether a tag is a ["p", pk, ...] reference to a given pubkey. -/
def isPTagFor (pk : String) (tag : List String) : Bool :=
  match tag with
  | name :: target :: _ => decide (name = "p" ∧ target = pk)
  | _ => false

/-- The service id declared by a tag, when the tag is ["d", id, ...]. -/
def dId? : List String → Option String
  | name :: value :: _ => if name = "d" then some value else none
  | _ => none

/-! ### Concrete sample data used by witnesses and counterexamples -/

/-- A well-formed announcement event from author X with a d and a k tag. -/
def c1Evt : Event :=
  { author := some "X"
    npub := "npubX"
    id := "evt1"
    created_at := 42
    content := []
    kind := 31990
    tags := [["d", "svc1"], ["k", "5000"]] }

/-- A vendor record for X with last_seen 5, as saved by a previous scan. -/
def c2Rec : VendorRecord :=
  { pubkey := "X"
    npub := "npubX"
    first_seen := 1
    announcements := []
    services := []
    last_seen := some 5
    results := none
    request_count := none }

/-- A registry holding only the record c2Rec under key X. -/
def c2Reg : Registry := [("X", c2Rec)]

/-- A vendor record for X with no request_count key. -/
def c4Rec : VendorRecord :=
  { pubkey := "X"
    npub := "npubX"
    first_seen := 1
    announcements := []
    services := []
    last_seen := none
    results := none
    request_count := none }

/-- A registry holding only the record c4Rec under key X. -/
def c4Reg : Registry := [("X", c4Rec)]

/-- A request event with two p tags targeting X and one targeting an
identity Z absent from c4Reg. -/
def c4Evt : Event :=
  { author := some "requester"
    npub := "npubR"
    id := "req1"
    created_at := 50
    content := []
    kind := 5000
    tags := [["p", "X"], ["p", "Z"], ["p", "X"]] }

/-- A malformed event: its author() accessor raises. -/
def badEvt : Event :=
  { author := none
    npub := ""
    id := "bad"
    created_at := 0
    content := []
    kind := 6000
    tags := [] }

/-- A well-formed result event from author Y. -/
def goodEvt : Event :=
  { author := some "Y"
    npub := "npubY"
    id := "good"
    created_at := 1
    content := ['h', 'i']
    kind := 6000
    tags := [] }

/-! ### Dictionary lemmas -/

theorem findVendor_setVendor_self (st : Registry) (k : String)
    (v : VendorRecord) : findVendor (setVendor st k v) k = some v := by
  induction st with
  | nil => simp [setVendor, findVendor]
  | cons p rest ih =>
      obtain ⟨k', v'⟩ := p
      by_cases h : k' = k
      · simp [setVendor, h, findVendor]
      · simp [setVendor, h, findVendor, ih]

theorem findVendor_setVendor_ne (st : Registry) (k pk : String)
    (v : VendorRecord) (hne : pk ≠ k) :
    findVendor (setVendor st k v) pk = findVendor st pk := by
  have hne' : ¬ (k = pk) := fun h => hne h.symm
  induction st with
  | nil => simp [setVendor, findVendor, hne']
  | cons p rest ih =>
      obtain ⟨k', v'⟩ := p
      by_cases h : k' = k
      · subst h
        simp [setVendor, findVendor, hne']
      · simp only [setVendor, if_neg h, findVendor]
        by_cases h2 : k' = pk
        · simp [h2]
        · simp [h2, ih]

theorem keysOf_setVendor_of_mem (st : Registry) (k : String)
    (v w : VendorRecord) (hfind : findVendor st k = some w) :
    keysOf (setVendor st k v) = keysOf st := by
  induction st with
  | nil => simp [findVendor] at hfind
  | cons p rest ih =>
      obtain ⟨k', v'⟩ := p
      by_cases h : k' = k
      · simp [setVendor, h, keysOf]
      · simp only [findVendor, if_neg h] at hfind
        have hih := ih hfind
        simp only [setVendor, if_neg h, keysOf, List.map_cons] at hih ⊢
        rw [hih]

theorem findVendor_setVendor_cases (st : Registry) (k pk : String)
    (v w : VendorRecord) (h : findVendor (setVendor st k v) pk = some w) :
    (pk = k ∧ w = v) ∨ findVendor st pk = some w := by
  by_cases hpk : pk = k
  · subst hpk
    rw [findVendor_setVendor_self] at h
    exact Or.inl ⟨rfl, (Option.some.injEq _ _ ▸ h).symm⟩
  · rw [findVendor_setVendor_ne st k pk v hpk] at h
    exact Or.inr h

/-! ### Service extraction lemmas -/

theorem addService_dId (ss : List ServiceDescriptor) (tag : List String) :
    addService ss tag =
      match dId? tag with
      | none => ss
      | some i =>
          if i ∈ ss.map (fun s => s.id) then ss
          else ss ++ [⟨i, "unknown"⟩] := by
  match tag with
  | [] => rfl
  | [_] => rfl
  | name :: value :: rest =>
      by_cases h : name = "d" <;> simp [addService, dId?, h]

theorem serviceIds_subset_addService (ss : List ServiceDescriptor)
    (tag : List String) :
    (ss.map (fun s => s.id)) ⊆ ((addService ss tag).map (fun s => s.id)) := by
  rw [addService_dId]
  cases h : dId? tag with
  | none => simp
  | some i =>
      by_cases hc : i ∈ ss.map (fun s => s.id)
      · simp [hc]
      · simp only [hc, if_neg, not_false_iff]
        intro x hx
        simp only [List.map_append, List.mem_append]
        exact Or.inl hx

theorem serviceIds_subset_addServices (tags : List (List String)) :
    ∀ ss : List ServiceDescriptor,
      (ss.map (fun s => s.id)) ⊆ ((addServices ss tags).map (fun s => s.id)) := by
  induction tags with
  | nil => intro ss; simp [addServices]
  | cons t ts ih =>
      intro ss
      have h1 := serviceIds_subset_addService ss t
      have h2 := ih (addService ss t)
      simp only [addServices, List.foldl_cons] at *
      exact h1.trans h2

theorem dId_mem_addService (ss : List ServiceDescriptor) (tag : List String)
    (i : String) (h : dId? tag = some i) :
    i ∈ (addService ss tag).map (fun s => s.id) := by
  rw [addService_dId, h]
  by_cases hc : i ∈ ss.map (fun s => s.id)
  · simp [hc]
  · simp [hc]

theorem dId_mem_addServices (tags : List (List String)) :
    ∀ ss : List ServiceDescriptor, ∀ t ∈ tags, ∀ i, dId? t = some i →
      i ∈ (addServices ss tags).map (fun s => s.id) := by
  induction tags with
  | nil => intro ss t ht; simp at ht
  | cons hd tl ih =>
      intro ss t ht i hi
      simp only [addServices, List.foldl_cons]
      rcases List.mem_cons.mp ht with h | h
      · subst h
        exact serviceIds_subset_addServices tl (addService ss t)
          (dId_mem_addService ss t i hi)
      · exact ih (addService ss hd) t h i hi

theorem addServices_noop (tags : List (List String))
    (ss : List ServiceDescriptor)
    (hcov : ∀ t ∈ tags, ∀ i, dId? t = some i →
      i ∈ ss.map (fun s => s.id)) :
    addServices ss tags = ss := by
  induction tags with
  | nil => rfl
  | cons hd tl ih =>
      have hhd : addService ss hd = ss := by
        rw [addService_dId]
        cases h : dId? hd with
        | none => rfl
        | some i =>
            have hmem := hcov hd (List.mem_cons_self hd tl) i h
            simp [hmem]
      simp only [addServices, List.foldl_cons, hhd]
      exact ih (fun t ht i hi => hcov t (List.mem_cons_of_mem hd ht) i hi)

theorem addServices_idem (ss : List ServiceDescriptor)
    (tags : List (List String)) :
    addServices (addServices ss tags) tags = addServices ss tags :=
  addServices_noop tags (addServices ss tags)
    (fun t ht i hi => dId_mem_addServices tags ss t ht i hi)

theorem nodup_addService (ss : List ServiceDescriptor) (tag : List String)
    (h : (ss.map (fun s => s.id)).Nodup) :
    ((addService ss tag).map (fun s => s.id)).Nodup := by
  rw [addService_dId]
  cases hd : dId? tag with
  | none => exact h
  | some i =>
      by_cases hc : i ∈ ss.map (fun s => s.id)
      · simpa [hc] using h
      · simp only [hc, if_neg, not_false_iff, List.map_append]
        rw [List.nodup_append]
        refine ⟨h, List.nodup_singleton _, ?_⟩
        intro x hx hx2
        simp only [List.map_cons, List.map_nil, List.mem_singleton] at hx2
        exact hc (hx2 ▸ hx)

theorem nodup_addServices (tags : List (List String)) :
    ∀ ss : List ServiceDescriptor, (ss.map (fun s => s.id)).Nodup →
      ((addServices ss tags).map (fun s => s.id)).Nodup := by
  induction tags with
  | nil => intro ss h; exact h
  | cons hd tl ih =>
      intro ss h
      simp only [addServices, List.foldl_cons]
      exact ih (addService ss hd) (nodup_addService ss hd h)

/-! ### Characterisation of the per-event merges -/

/-- The record a processed announcement event leaves at its author key. -/
theorem mergeAnnouncement_findVendor (st : Registry) (e : Event) (now : Nat)
    (pk : String) (ha : e.author = some pk) :
    findVendor (mergeAnnouncement st e now) pk = some
      (let v0 := match findVendor st pk with
        | some v => v
        | none => freshAnnouncementVendor e pk now
      { v0 with
          announcements := v0.announcements ++ [annObservation e now]
          last_seen := some now
          services := addServices v0.services e.tags }) := by
  simp only [mergeAnnouncement, ha]
  exact findVendor_setVendor_self st pk _

/-- The record a processed result event leaves at the resolved author key. -/
theorem mergeResult_findVendor (st : Registry) (e : Event) (pk : String)
    (now : Nat) :
    findVendor (mergeResult st e pk now) pk = some
      (let v0 := match findVendor st pk with
        | some v => v
        | none => freshResultVendor e pk now
      let v1 := match v0.results with
        | none => { v0 with results := some [] }
        | some _ => v0
      { v1 with
          results := some ((v1.results.getD []) ++ [resultObservation e now])
          last_seen := some now }) := by
  simp only [mergeResult]
  exact findVendor_setVendor_self st pk _

/-- Announcement merge onto an existing record. -/
theorem mergeAnnouncement_found (st : Registry) (e : Event) (now : Nat)
    (pk : String) (v0 : VendorRecord) (ha : e.author = some pk)
    (hf : findVendor st pk = some v0) :
    findVendor (mergeAnnouncement st e now) pk = some
      { v0 with
          announcements := v0.announcements ++ [annObservation e now]
          last_seen := some now
          services := addServices v0.services e.tags } := by
  have h := mergeAnnouncement_findVendor st e now pk ha
  rw [hf] at h
  exact h

/-- Announcement merge creating a fresh record. -/
theorem mergeAnnouncement_fresh (st : Registry) (e : Event) (now : Nat)
    (pk : String) (ha : e.author = some pk)
    (hf : findVendor st pk = none) :
    findVendor (mergeAnnouncement st e now) pk = some
      { pubkey := pk
        npub := e.npub
        first_seen := now
        announcements := [annObservation e now]
        services := addServices [] e.tags
        last_seen := some now
        results := none
        request_count := none } := by
  have h := mergeAnnouncement_findVendor st e now pk ha
  rw [hf] at h
  exact h

/-- Result merge onto an existing record. -/
theorem mergeResult_found (st : Registry) (e : Event) (pk : String)
    (now : Nat) (v0 : VendorRecord) (hf : findVendor st pk = some v0) :
    findVendor (mergeResult st e pk now) pk = some
      { v0 with
          results := some ((v0.results.getD []) ++ [resultObservation e now])
          last_seen := some now } := by
  cases hr : v0.results with
  | none =>
      simp only [mergeResult, hf, hr, Option.getD_none, List.nil_append]
      exact findVendor_setVendor_self st pk _
  | some l =>
      simp only [mergeResult, hf, hr, Option.getD_some]
      exact findVendor_setVendor_self st pk _

/-- Result merge creating a fresh record. -/
theorem mergeResult_fresh (st : Registry) (e : Event) (pk : String)
    (now : Nat) (hf : findVendor st pk = none) :
    findVendor (mergeResult st e pk now) pk = some
      { pubkey := pk
        npub := e.npub
        first_seen := now
        announcements := []
        services := []
        last_seen := some now
        results := some [resultObservation e now]
        request_count := none } := by
  simp only [mergeResult, hf, freshResultVendor, Option.getD_some,
    List.nil_append]
  exact findVendor_setVendor_self st pk _

/-- C1: for every registry state and announcement event, processing the same
announcement event twice appends two AnnouncementObservation entries to the
author's announcements sequence (no deduplication by event id), while the
services set gains nothing on the second processing (every service id named
in a d tag is already present after the first), and distinctness of service
ids is preserved, so at most one ServiceDescriptor exists per distinct
service id. -/
theorem c1_announce_twice_appends_observations_dedups_services
    (st : Registry) (e : Event) (now₁ now₂ : Nat) (pk : String)
    (ha : e.author = some pk) :
    annsOf (mergeAnnouncement (mergeAnnouncement st e now₁) e now₂) pk
      = annsOf st pk ++ [annObservation e now₁, annObservation e now₂]
    ∧ servicesOf (mergeAnnouncement (mergeAnnouncement st e now₁) e now₂) pk
      = servicesOf (mergeAnnouncement st e now₁) pk
    ∧ (((servicesOf st pk).map (fun s => s.id)).Nodup →
        ((servicesOf (mergeAnnouncement (mergeAnnouncement st e now₁) e now₂)
          pk).map (fun s => s.id)).Nodup) := by
  cases hf : findVendor st pk with
  | some v0 =>
      have h₁ := mergeAnnouncement_found st e now₁ pk v0 ha hf
      have h₂ := mergeAnnouncement_found (mergeAnnouncement st e now₁) e now₂
        pk _ ha h₁
      refine ⟨?_, ?_, ?_⟩
      · simp [annsOf, h₂, hf]
      · simp [servicesOf, h₂, h₁, addServices_idem]
      · intro hnd
        simp only [servicesOf, hf, Option.map_some, Option.getD_some] at hnd
        simp only [servicesOf, h₂, Option.map_some, Option.getD_some]
        exact nodup_addServices _ _ (nodup_addServices _ _ hnd)
  | none =>
      have h₁ := mergeAnnouncement_fresh st e now₁ pk ha hf
      have h₂ := mergeAnnouncement_found (mergeAnnouncement st e now₁) e now₂
        pk _ ha h₁
      refine ⟨?_, ?_, ?_⟩
      · simp [annsOf, h₂, hf]
      · simp [servicesOf, h₂, h₁, addServices_idem]
      · intro hnd
        simp only [servicesOf, h₂, Option.map_some, Option.getD_some]
        exact nodup_addServices _ _ (nodup_addServices _ _ (by simp))

/-- Closed witness for C1 at a concrete registry and event. -/
theorem c1_witness :
    (c1Evt.author = some "X")
    ∧ (annsOf (mergeAnnouncement (mergeAnnouncement [] c1Evt 10) c1Evt 20) "X"
        = annsOf ([] : Registry) "X"
          ++ [annObservation c1Evt 10, annObservation c1Evt 20]) := by
  exact ⟨rfl, (c1_announce_twice_appends_observations_dedups_services
    [] c1Evt 10 20 "X" rfl).1⟩

/-! ### Request phase lemmas -/

theorem keysOf_countRequestTag (st : Registry) (tag : List String) :
    keysOf (countRequestTag st tag) = keysOf st := by
  match tag with
  | [] => rfl
  | [_] => rfl
  | name :: target :: rest =>
      by_cases hp : name = "p"
      · simp only [countRequestTag, hp, if_pos]
        cases hf : findVendor st target with
        | none => rfl
        | some v => exact keysOf_setVendor_of_mem st target _ v hf
      · simp [countRequestTag, hp]

theorem keysOf_foldTags (tags : List (List String)) :
    ∀ st : Registry, keysOf (tags.foldl countRequestTag st) = keysOf st := by
  induction tags with
  | nil => intro st; rfl
  | cons t ts ih =>
      intro st
      simp only [List.foldl_cons]
      rw [ih (countRequestTag st t), keysOf_countRequestTag]

theorem keysOf_processRequestBatch (events : List Event) :
    ∀ st : Registry, keysOf (processRequestBatch st events) = keysOf st := by
  induction events with
  | nil => intro st; rfl
  | cons e es ih =>
      intro st
      simp only [processRequestBatch, List.foldl_cons]
      have := ih (mergeRequest st e)
      simp only [processRequestBatch] at this
      rw [this, mergeRequest, keysOf_foldTags]

/-- C3: a request-phase event never creates a VendorRecord: whatever its p
tags reference, the key sequence of the registry after processing a request
event (or a whole request batch) equals the key sequence before, so an
identity absent before is absent after. -/
theorem c3_request_never_creates_record (st : Registry) (e : Event)
    (events : List Event) :
    keysOf (mergeRequest st e) = keysOf st
    ∧ keysOf (processRequestBatch st events) = keysOf st := by
  exact ⟨by rw [mergeRequest, keysOf_foldTags],
    keysOf_processRequestBatch events st⟩

theorem countRequestTag_findVendor (st : Registry) (tag : List String)
    (pk : String) (v : VendorRecord) (hf : findVendor st pk = some v) :
    findVendor (countRequestTag st tag) pk = some
      (if isPTagFor pk tag
        then { v with request_count := some (v.request_count.getD 0 + 1) }
        else v) := by
  match tag with
  | [] => simp [countRequestTag, isPTagFor, hf]
  | [_] => simp [countRequestTag, isPTagFor, hf]
  | name :: target :: rest =>
      by_cases hp : name = "p"
      · by_cases ht : target = pk
        · subst ht
          simp only [countRequestTag, hp, if_pos, hf, isPTagFor]
          rw [findVendor_setVendor_self]
          simp [hp]
        · have hne : pk ≠ target := fun h => ht h.symm
          simp only [countRequestTag, hp, if_pos, isPTagFor]
          cases hf2 : findVendor st target with
          | none => simp [hf, hp, ht]
          | some w =>
              rw [findVendor_setVendor_ne st target pk _ hne, hf]
              simp [hp, ht]
      · simp [countRequestTag, hp, isPTagFor, hf]

theorem foldTags_requestCount (pk : String) (tags : List (List String)) :
    ∀ (st : Registry) (v : VendorRecord), findVendor st pk = some v →
      (findVendor (tags.foldl countRequestTag st) pk).map
          (fun w => w.request_count.getD 0)
        = some (v.request_count.getD 0 + tags.countP (isPTagFor pk)) := by
  induction tags with
  | nil => intro st v hf; simp [hf]
  | cons t ts ih =>
      intro st v hf
      have h1 := countRequestTag_findVendor st t pk v hf
      simp only [List.foldl_cons]
      cases hpt : isPTagFor pk t with
      | false =>
          rw [hpt] at h1
          simp only [if_neg, Bool.false_eq_true, not_false_iff] at h1
          rw [ih (countRequestTag st t) v h1]
          simp [List.countP_cons, hpt]
      | true =>
          rw [hpt] at h1
          simp only [if_pos] at h1
          rw [ih (countRequestTag st t) _ h1]
          simp only [Option.getD_some, List.countP_cons, hpt, if_pos]
          congr 1
          omega

/-- C4: for a registry containing a record for X, one request event whose
tag list contains n p tags referencing X increases the request_count read
for X (an absent key reading as 0 per the initialise-then-increment at
scanner.py:207-209) by exactly n, one per matching tag occurrence. -/
theorem c4_request_count_per_matching_tag (st : Registry) (e : Event)
    (pk : String) (v : VendorRecord) (hf : findVendor st pk = some v) :
    (findVendor (mergeRequest st e) pk).map (fun w => w.request_count.getD 0)
      = some (v.request_count.getD 0 + e.tags.countP (isPTagFor pk)) := by
  exact foldTags_requestCount pk e.tags st v hf

/-- Closed witness for C4: two p tags referencing X take a record with no
prior request_count from 0 to 2. -/
theorem c4_witness :
    findVendor c4Reg "X" = some c4Rec
    ∧ (findVendor (mergeRequest c4Reg c4Evt) "X").map
        (fun w => w.request_count.getD 0)
      = some (c4Rec.request_count.getD 0 + c4Evt.tags.countP (isPTagFor "X"))
    ∧ c4Rec.request_count.getD 0 + c4Evt.tags.countP (isPTagFor "X") = 2 := by
  refine ⟨by decide, ?_, by decide⟩
  exact c4_request_count_per_matching_tag c4Reg c4Evt "X" c4Rec (by decide)

/-- A result event with 600-character content. -/
def c5Evt : Event :=
  { author := some "Y"
    npub := "npubY"
    id := "res600"
    created_at := 60
    content := List.replicate 600 'a'
    kind := 6000
    tags := [] }

/-- C5: the ResultObservation appended by a result event carries the event
content truncated to at most 500 code units: the merged record ends with an
observation whose content is content.take 500, whose length is exactly 500
when the content has at least 500 code units, and which is the full content
when the content is shorter. -/
theorem c5_result_excerpt_truncated (st : Registry) (e : Event)
    (pk : String) (now : Nat) :
    (∃ v pre, findVendor (mergeResult st e pk now) pk = some v
       ∧ v.results = some (pre ++ [resultObservation e now]))
    ∧ (resultObservation e now).content = e.content.take 500
    ∧ (500 ≤ e.content.length →
        (resultObservation e now).content.length = 500)
    ∧ (e.content.length ≤ 500 →
        (resultObservation e now).content = e.content) := by
  refine ⟨?_, rfl, ?_, ?_⟩
  · cases hf : findVendor st pk with
    | some v0 =>
        exact ⟨_, v0.results.getD [], mergeResult_found st e pk now v0 hf, rfl⟩
    | none =>
        exact ⟨_, [], mergeResult_fresh st e pk now hf, by simp⟩
  · intro h
    simp only [resultObservation, List.length_take]
    omega
  · intro h
    simp [resultObservation, List.take_of_length_le h]

/-- Closed witness for C5: a 600-character result content yields an excerpt
of length exactly 500. -/
theorem c5_witness :
    500 ≤ c5Evt.content.length
    ∧ (resultObservation c5Evt 9).content.length = 500 := by
  have hrep : c5Evt.content = List.replicate 600 'a' := rfl
  have hlen : 500 ≤ c5Evt.content.length := by
    rw [hrep, List.length_replicate]
    omega
  exact ⟨hlen, (c5_result_excerpt_truncated [] c5Evt "Y" 9).2.2.1 hlen⟩

/-- C8: from an empty registry, one announcement from X with tags
[[d,svc1],[k,5000]] yields exactly one record, keyed by X, with exactly one
service descriptor (id svc1) and one announcement observation; the record
equals the explicit literal below, which in particular stores nothing from
the k tag beyond the observation's raw tag list (the k tag is only
logged). -/
theorem c8_single_announcement_end_to_end :
    processAnnouncementBatch [] [c1Evt] 100
      = [("X",
          { pubkey := "X"
            npub := "npubX"
            first_seen := 100
            announcements := [⟨"evt1", 42, [], [["d", "svc1"], ["k", "5000"]], 100⟩]
            services := [⟨"svc1", "unknown"⟩]
            last_seen := some 100
            results := none
            request_count := none })] := by
  decide

/-! ### last_seen behaviour (C2) -/

theorem lastSeenOf_mergeAnnouncement (st : Registry) (e : Event) (now : Nat)
    (pk : String) (ha : e.author = some pk) :
    lastSeenOf (mergeAnnouncement st e now) pk = some now := by
  cases hf : findVendor st pk with
  | some v0 => simp [lastSeenOf, mergeAnnouncement_found st e now pk v0 ha hf]
  | none => simp [lastSeenOf, mergeAnnouncement_fresh st e now pk ha hf]

theorem lastSeenOf_mergeResult (st : Registry) (e : Event) (pk : String)
    (now : Nat) : lastSeenOf (mergeResult st e pk now) pk = some now := by
  cases hf : findVendor st pk with
  | some v0 => simp [lastSeenOf, mergeResult_found st e pk now v0 hf]
  | none => simp [lastSeenOf, mergeResult_fresh st e pk now hf]

/-- C2 counterexample: a record whose stored last_seen is 5, merged with an
announcement whose observation timestamp is 3, ends with last_seen 3 and not
max(5,3) = 5: the code overwrites last_seen with the clock reading instead
of taking the maximum. -/
theorem c2_counterexample :
    lastSeenOf c2Reg "X" = some 5
    ∧ lastSeenOf (mergeAnnouncement c2Reg c1Evt 3) "X" = some 3
    ∧ lastSeenOf (mergeAnnouncement c2Reg c1Evt 3) "X" ≠ some (max 5 3) := by
  decide

/-- C2 amended: every merge (announcement or result phase) overwrites
last_seen with the observation timestamp unconditionally; therefore
last_seen_after = max(last_seen_before, M.timestamp) does hold whenever the
observation timestamp is at least the stored last_seen (the only situation a
monotone clock produces), and merging the same event a second time with an
identical timestamp leaves last_seen unchanged. -/
theorem c2_last_seen_overwritten (st : Registry) (e : Event) (pk : String)
    (now : Nat) (ha : e.author = some pk) :
    lastSeenOf (mergeAnnouncement st e now) pk = some now
    ∧ (∀ b, lastSeenOf st pk = some b → b ≤ now →
        lastSeenOf (mergeAnnouncement st e now) pk = some (max b now))
    ∧ lastSeenOf (mergeAnnouncement (mergeAnnouncement st e now) e now) pk
        = lastSeenOf (mergeAnnouncement st e now) pk
    ∧ lastSeenOf (mergeResult st e pk now) pk = some now
    ∧ (∀ b, lastSeenOf st pk = some b → b ≤ now →
        lastSeenOf (mergeResult st e pk now) pk = some (max b now))
    ∧ lastSeenOf (mergeResult (mergeResult st e pk now) e pk now) pk
        = lastSeenOf (mergeResult st e pk now) pk := by
  refine ⟨lastSeenOf_mergeAnnouncement st e now pk ha, ?_, ?_,
    lastSeenOf_mergeResult st e pk now, ?_, ?_⟩
  · intro b _ hb
    rw [lastSeenOf_mergeAnnouncement st e now pk ha, Nat.max_eq_right hb]
  · rw [lastSeenOf_mergeAnnouncement _ e now pk ha,
      lastSeenOf_mergeAnnouncement st e now pk ha]
  · intro b _ hb
    rw [lastSeenOf_mergeResult st e pk now, Nat.max_eq_right hb]
  · rw [lastSeenOf_mergeResult _ e pk now, lastSeenOf_mergeResult st e pk now]

/-- Closed witness for the amended C2 at a concrete record. -/
theorem c2_witness :
    c1Evt.author = some "X"
    ∧ lastSeenOf c2Reg "X" = some 5
    ∧ (5 : Nat) ≤ 9
    ∧ lastSeenOf (mergeAnnouncement c2Reg c1Evt 9) "X" = some (max 5 9) := by
  exact ⟨rfl, by decide, by decide,
    (c2_last_seen_overwritten c2Reg c1Evt "X" 9 rfl).2.1 5 (by decide)
      (by decide)⟩

/-! ### Error handling scopes (C6) -/

/-- C6 counterexample: in the result phase the try/except wraps the whole
per-filter batch, so a malformed first event drops the remaining events of
its batch: processing [badEvt, goodEvt] leaves the registry empty, although
goodEvt alone would have created a record. -/
theorem c6_counterexample :
    processResultBatch [] [badEvt, goodEvt] 7 = ([] : Registry)
    ∧ processResultBatch [] [goodEvt] 7 ≠ ([] : Registry) := by
  decide

/-- C6 amended: in the announcement phase the try/except sits inside the
event loop, so a malformed event (author() raises) is caught, skipped
individually, and the remaining events of its batch are still processed; in
the result phase (and likewise the request phase) the try/except wraps the
whole per-filter batch, so a malformed event aborts the remainder of its own
batch, keeping mutations already applied, and only later batches and phases
continue. -/
theorem c6_error_scopes (st : Registry) (e : Event) (es : List Event)
    (now : Nat) (hmal : e.author = none) :
    processAnnouncementBatch st (e :: es) now
      = processAnnouncementBatch st es now
    ∧ processResultBatch st (e :: es) now = st := by
  constructor
  · simp [processAnnouncementBatch, mergeAnnouncement, hmal]
  · simp [processResultBatch, hmal]

/-- Closed witness for the amended C6. -/
theorem c6_witness :
    badEvt.author = none
    ∧ processAnnouncementBatch [] [badEvt, c1Evt] 3
        = processAnnouncementBatch [] [c1Evt] 3
    ∧ processResultBatch c2Reg [badEvt, goodEvt] 3 = c2Reg := by
  exact ⟨rfl, (c6_error_scopes [] badEvt [c1Evt] 3 rfl).1,
    (c6_error_scopes c2Reg badEvt [goodEvt] 3 rfl).2⟩

/-! ### Clock dependence of the merge (C9) -/

/-- Erase the wall-clock-derived field of an announcement observation. -/
def eraseAnnTime (a : AnnouncementData) : AnnouncementData :=
  { a with discovered_at := 0 }

/-- Erase the wall-clock-derived field of a result observation. -/
def eraseResTime (r : ResultData) : ResultData :=
  { r with discovered_at := 0 }

/-- Erase every wall-clock-derived field of a vendor record. -/
def eraseVendorTime (v : VendorRecord) : VendorRecord :=
  { v with
      first_seen := 0
      last_seen := none
      announcements := v.announcements.map eraseAnnTime
      results := v.results.map (fun l => l.map eraseResTime) }

/-- Erase every wall-clock-derived field of a registry. -/
def eraseRegTime (st : Registry) : Registry :=
  st.map (fun p => (p.1, eraseVendorTime p.2))

theorem eraseRegTime_setVendor (st : Registry) (k : String)
    (v : VendorRecord) :
    eraseRegTime (setVendor st k v)
      = setVendor (eraseRegTime st) k (eraseVendorTime v) := by
  induction st with
  | nil => rfl
  | cons p rest ih =>
      obtain ⟨k', v'⟩ := p
      by_cases h : k' = k
      · simp [setVendor, h, eraseRegTime]
      · simp only [setVendor, if_neg h, eraseRegTime, List.map_cons] at ih ⊢
        rw [ih]

/-- C9 counterexample: the merge is not a pure function of (registry state,
event, phase) alone: the same empty registry and the same announcement
event processed at two different wall-clock readings produce different
registry states (first_seen, last_seen and discovered_at differ). -/
theorem c9_counterexample :
    mergeAnnouncement [] c1Evt 1 ≠ mergeAnnouncement [] c1Evt 2 := by
  decide

/-- C9 amended: the aggregation step is a pure function of (current registry
state, event, phase, wall-clock reading): with the clock reading passed as
an explicit input there is no hidden state, and the clock reading influences
the result only through the timestamp fields first_seen, last_seen and
discovered_at — erasing those fields, announcement and result merges at any
two clock readings coincide, and the request merge reads no clock at all. -/
theorem c9_pure_given_clock (st : Registry) (e : Event) (t₁ t₂ : Nat)
    (pk : String) :
    eraseRegTime (mergeAnnouncement st e t₁)
      = eraseRegTime (mergeAnnouncement st e t₂)
    ∧ eraseRegTime (mergeResult st e pk t₁)
      = eraseRegTime (mergeResult st e pk t₂) := by
  constructor
  · cases ha : e.author with
    | none => simp [mergeAnnouncement, ha]
    | some pk' =>
        simp only [mergeAnnouncement, ha, eraseRegTime_setVendor]
        cases hf : findVendor st pk' with
        | some v0 =>
            simp [eraseVendorTime, eraseAnnTime, annObservation,
              List.map_append]
        | none =>
            simp [eraseVendorTime, eraseAnnTime, annObservation,
              freshAnnouncementVendor, List.map_append]
  · simp only [mergeResult, eraseRegTime_setVendor]
    cases hf : findVendor st pk with
    | some v0 =>
        cases hr : v0.results with
        | none =>
            simp [hr, eraseVendorTime, eraseResTime, resultObservation,
              List.map_append]
        | some l =>
            simp [hr, eraseVendorTime, eraseResTime, resultObservation,
              List.map_append]
    | none =>
        simp [eraseVendorTime, eraseResTime, resultObservation,
          freshResultVendor, List.map_append]

/-! ### Persistence (C7)

save_vendor_data (scanner.py:45-49) serialises the registry as one JSON
document; load_existing_data (scanner.py:51-59) parses it back, returning
the empty mapping when the snapshot is missing or unreadable.  The text
layer between a JSON document and the file (json.dump / json.load and file
IO) is Python standard library, modelled as the identity on documents; the
embedding covers the mapping between the structured registry and the
document, field by field, with the optional dict keys present exactly when
the record carries them. -/

/-- A JSON document as persisted by the scanner. -/
inductive Json where
  | str : String → Json
  | num : Nat → Json
  | arr : List Json → Json
  | obj : List (String × Json) → Json

/-- Dict field access by key (first binding wins). -/
def getField : List (String × Json) → String → Option Json
  | [], _ => none
  | (k', j) :: rest, k => if k' = k then some j else getField rest k

/-- Serialise a tag list. -/
def encodeTags (tags : List (List String)) : Json :=
  Json.arr (tags.map (fun t => Json.arr (t.map Json.str)))

/-- Serialise one announcement observation dict. -/
def encodeAnn (a : AnnouncementData) : Json :=
  Json.obj
    [("event_id", Json.str a.event_id),
     ("created_at", Json.num a.created_at),
     ("content", Json.str (String.mk a.content)),
     ("tags", encodeTags a.tags),
     ("discovered_at", Json.num a.discovered_at)]

/-- Serialise one service descriptor dict. -/
def encodeService (s : ServiceDescriptor) : Json :=
  Json.obj [("id", Json.str s.id), ("type", Json.str s.type)]

/-- Serialise one result observation dict. -/
def encodeRes (r : ResultData) : Json :=
  Json.obj
    [("event_id", Json.str r.event_id),
     ("kind", Json.num r.kind),
     ("created_at", Json.num r.created_at),
     ("content", Json.str (String.mk r.content)),
     ("discovered_at", Json.num r.discovered_at)]

/-- Serialise one vendor record dict; the optional keys last_seen, results
and request_count appear exactly when the record carries them. -/
def encodeVendor (v : VendorRecord) : Json :=
  Json.obj
    ([("pubkey", Json.str v.pubkey),
      ("npub", Json.str v.npub),
      ("first_seen", Json.num v.first_seen),
      ("announcements", Json.arr (v.announcements.map encodeAnn)),
      ("services", Json.arr (v.services.map encodeService))]
     ++ (match v.last_seen with
         | some t => [("last_seen", Json.num t)]
         | none => [])
     ++ (match v.results with
         | some rs => [("results", Json.arr (rs.map encodeRes))]
         | none => [])
     ++ (match v.request_count with
         | some c => [("request_count", Json.num c)]
         | none => []))

/-- save_vendor_data (scanner.py:45-49): the full-registry overwrite
snapshot as one JSON document. -/
def save_vendor_data (st : Registry) : Json :=
  Json.obj (st.map (fun p => (p.1, encodeVendor p.2)))

/-- Read back a string. -/
def asStr : Json → Option String
  | Json.str s => some s
  | _ => none

/-- Decode every element of a list, failing if any element fails. -/
def decodeAll {α : Type} (f : Json → Option α) : List Json → Option (List α)
  | [] => some []
  | j :: js =>
      match f j, decodeAll f js with
      | some a, some as => some (a :: as)
      | _, _ => none

/-- Read back one tag. -/
def decodeStrList : Json → Option (List String)
  | Json.arr js => decodeAll asStr js
  | _ => none

/-- Read back a tag list. -/
def decodeTags : Json → Option (List (List String))
  | Json.arr js => decodeAll decodeStrList js
  | _ => none

/-- Read back one announcement observation. -/
def decodeAnn : Json → Option AnnouncementData
  | Json.obj fs =>
      match getField fs "event_id", getField fs "created_at",
            getField fs "content", getField fs "tags",
            getField fs "discovered_at" with
      | some (Json.str eid), some (Json.num ca), some (Json.str c),
        some tj, some (Json.num da) =>
          match decodeTags tj with
          | some tags => some ⟨eid, ca, c.data, tags, da⟩
          | none => none
      | _, _, _, _, _ => none
  | _ => none

/-- Read back one service descriptor. -/
def decodeService : Json → Option ServiceDescriptor
  | Json.obj fs =>
      match getField fs "id", getField fs "type" with
      | some (Json.str i), some (Json.str t) => some ⟨i, t⟩
      | _, _ => none
  | _ => none

/-- Read back one result observation. -/
def decodeRes : Json → Option ResultData
  | Json.obj fs =>
      match getField fs "event_id", getField fs "kind",
            getField fs "created_at", getField fs "content",
            getField fs "discovered_at" with
      | some (Json.str eid), some (Json.num k), some (Json.num ca),
        some (Json.str c), some (Json.num da) =>
          some ⟨eid, k, ca, c.data, da⟩
      | _, _, _, _, _ => none
  | _ => none

/-- Read back an optional numeric dict key (absent key stays absent). -/
def decodeOptNum : Option Json → Option (Option Nat)
  | none => some none
  | some (Json.num n) => some (some n)
  | some _ => none

/-- Read back the optional results key. -/
def decodeOptResults : Option Json → Option (Option (List ResultData))
  | none => some none
  | some (Json.arr js) => (decodeAll decodeRes js).map some
  | some _ => none

/-- Read back one vendor record. -/
def decodeVendor : Json → Option VendorRecord
  | Json.obj fs =>
      match getField fs "pubkey", getField fs "npub",
            getField fs "first_seen", getField fs "announcements",
            getField fs "services" with
      | some (Json.str p), some (Json.str n), some (Json.num f),
        some (Json.arr aj), some (Json.arr sj) =>
          match decodeAll decodeAnn aj, decodeAll decodeService sj,
                decodeOptNum (getField fs "last_seen"),
                decodeOptResults (getField fs "results"),
                decodeOptNum (getField fs "request_count") with
          | some anns, some servs, some ls, some rs, some rc =>
              some ⟨p, n, f, anns, servs, ls, rs, rc⟩
          | _, _, _, _, _ => none
      | _, _, _, _, _ => none
  | _ => none

/-- Read back the vendors mapping, key by key. -/
def decodePairs : List (String × Json) → Option Registry
  | [] => some []
  | (k, j) :: rest =>
      match decodeVendor j, decodePairs rest with
      | some v, some vs => some ((k, v) :: vs)
      | _, _ => none

/-- load_existing_data (scanner.py:51-59): parse the snapshot document; an
unreadable document yields the empty mapping. -/
def load_existing_data (j : Json) : Registry :=
  (match j with
   | Json.obj fs => decodePairs fs
   | _ => none).getD []

theorem decodeAll_map {α : Type} (f : Json → Option α) (g : α → Json)
    (hfg : ∀ a, f (g a) = some a) :
    ∀ l : List α, decodeAll f (l.map g) = some l := by
  intro l
  induction l with
  | nil => rfl
  | cons a as ih => simp [decodeAll, hfg a, ih]

theorem decodeStrList_encode (t : List String) :
    decodeStrList (Json.arr (t.map Json.str)) = some t := by
  simp [decodeStrList, decodeAll_map asStr Json.str (fun a => rfl)]

theorem decodeTags_encode (tags : List (List String)) :
    decodeTags (encodeTags tags) = some tags := by
  simp [decodeTags, encodeTags,
    decodeAll_map decodeStrList (fun t => Json.arr (t.map Json.str))
      decodeStrList_encode]

theorem decodeAnn_encode (a : AnnouncementData) :
    decodeAnn (encodeAnn a) = some a := by
  simp [decodeAnn, encodeAnn, getField, decodeTags_encode]

theorem decodeService_encode (s : ServiceDescriptor) :
    decodeService (encodeService s) = some s := by
  simp [decodeService, encodeService, getField]

theorem decodeRes_encode (r : ResultData) :
    decodeRes (encodeRes r) = some r := by
  simp [decodeRes, encodeRes, getField]

theorem decodeVendor_encode (v : VendorRecord) :
    decodeVendor (encodeVendor v) = some v := by
  obtain ⟨p, n, f, anns, servs, ls, rs, rc⟩ := v
  cases ls <;> cases rs <;> cases rc <;>
    simp [decodeVendor, encodeVendor, getField,
      decodeAll_map decodeAnn encodeAnn decodeAnn_encode,
      decodeAll_map decodeService encodeService decodeService_encode,
      decodeAll_map decodeRes encodeRes decodeRes_encode,
      decodeOptNum, decodeOptResults]

theorem decodePairs_encode (st : Registry) :
    decodePairs (st.map (fun p => (p.1, encodeVendor p.2))) = some st := by
  induction st with
  | nil => rfl
  | cons p rest ih => simp [decodePairs, decodeVendor_encode, ih]

/-- C7: save followed by load reproduces an equivalent mapping: for every
registry (in particular every non-empty one), parsing the saved snapshot
returns the same identity keys bound to records with the same field values,
in the same order. -/
theorem c7_save_load_round_trip (st : Registry) :
    load_existing_data (save_vendor_data st) = st := by
  simp [load_existing_data, save_vendor_data, decodePairs_encode]

/-! ### Reachable states and the optional fields (C10) -/

/-- Registry states the scan can build from the empty prior registry: any
sequence of announcement, result and request batches. -/
inductive Reachable : Registry → Prop where
  | empty : Reachable []
  | ann (st : Registry) (es : List Event) (now : Nat) :
      Reachable st → Reachable (processAnnouncementBatch st es now)
  | res (st : Registry) (es : List Event) (now : Nat) :
      Reachable st → Reachable (processResultBatch st es now)
  | req (st : Registry) (es : List Event) :
      Reachable st → Reachable (processRequestBatch st es)

/-- Every request_count the registry carries is at least 1. -/
def CountInv (st : Registry) : Prop :=
  ∀ pk v c, findVendor st pk = some v → v.request_count = some c → 1 ≤ c

theorem countInv_setVendor (st : Registry) (k : String) (v : VendorRecord)
    (hst : CountInv st) (hv : ∀ c, v.request_count = some c → 1 ≤ c) :
    CountInv (setVendor st k v) := by
  intro pk w c hf hc
  rcases findVendor_setVendor_cases st k pk v w hf with ⟨_, hw⟩ | h2
  · exact hv c (hw ▸ hc)
  · exact hst pk w c h2 hc

theorem mergeAnnouncement_countInv (st : Registry) (e : Event) (now : Nat)
    (hst : CountInv st) : CountInv (mergeAnnouncement st e now) := by
  cases ha : e.author with
  | none => simpa [mergeAnnouncement, ha] using hst
  | some pk =>
      cases hf : findVendor st pk with
      | some v0 =>
          simp only [mergeAnnouncement, ha, hf]
          apply countInv_setVendor st pk _ hst
          intro c hc
          exact hst pk v0 c hf hc
      | none =>
          simp only [mergeAnnouncement, ha, hf]
          apply countInv_setVendor st pk _ hst
          intro c hc
          simp [freshAnnouncementVendor] at hc

theorem mergeResult_countInv (st : Registry) (e : Event) (pk : String)
    (now : Nat) (hst : CountInv st) : CountInv (mergeResult st e pk now) := by
  cases hf : findVendor st pk with
  | some v0 =>
      cases hr : v0.results with
      | none =>
          simp only [mergeResult, hf, hr]
          apply countInv_setVendor st pk _ hst
          intro c hc
          exact hst pk v0 c hf hc
      | some l =>
          simp only [mergeResult, hf, hr]
          apply countInv_setVendor st pk _ hst
          intro c hc
          exact hst pk v0 c hf hc
  | none =>
      simp only [mergeResult, hf]
      cases hr : (freshResultVendor e pk now).results with
      | none => simp [freshResultVendor] at hr
      | some l =>
          apply countInv_setVendor st pk _ hst
          intro c hc
          simp [freshResultVendor] at hc

theorem countRequestTag_countInv (st : Registry) (tag : List String)
    (hst : CountInv st) : CountInv (countRequestTag st tag) := by
  match tag with
  | [] => exact hst
  | [_] => exact hst
  | name :: target :: rest =>
      by_cases hp : name = "p"
      · simp only [countRequestTag, hp, if_pos]
        cases hf : findVendor st target with
        | none => exact hst
        | some v =>
            apply countInv_setVendor st target _ hst
            intro c hc
            simp only [Option.some.injEq] at hc
            omega
      · simpa [countRequestTag, hp] using hst

theorem processAnnouncementBatch_countInv (es : List Event) :
    ∀ (st : Registry) (now : Nat), CountInv st →
      CountInv (processAnnouncementBatch st es now) := by
  induction es with
  | nil => intro st now hst; exact hst
  | cons e rest ih =>
      intro st now hst
      exact ih (mergeAnnouncement st e now) now
        (mergeAnnouncement_countInv st e now hst)

theorem processResultBatch_countInv (es : List Event) :
    ∀ (st : Registry) (now : Nat), CountInv st →
      CountInv (processResultBatch st es now) := by
  induction es with
  | nil => intro st now hst; exact hst
  | cons e rest ih =>
      intro st now hst
      cases ha : e.author with
      | none => simpa [processResultBatch, ha] using hst
      | some pk =>
          simp only [processResultBatch, ha]
          exact ih (mergeResult st e pk now) now
            (mergeResult_countInv st e pk now hst)

theorem processRequestBatch_countInv (es : List Event) :
    ∀ st : Registry, CountInv st → CountInv (processRequestBatch st es) := by
  induction es with
  | nil => intro st hst; exact hst
  | cons e rest ih =>
      intro st hst
      simp only [processRequestBatch, List.foldl_cons]
      have h1 : CountInv (mergeRequest st e) := by
        rw [mergeRequest]
        induction e.tags generalizing st with
        | nil => exact hst
        | cons t ts iht =>
            simp only [List.foldl_cons]
            exact iht (countRequestTag st t)
              (countRequestTag_countInv st t hst)
      have := ih (mergeRequest st e) h1
      simpa [processRequestBatch] using this

theorem reachable_countInv (st : Registry) (h : Reachable st) :
    CountInv st := by
  induction h with
  | empty => intro pk v c hf; simp [findVendor] at hf
  | ann st' es now _ ih => exact processAnnouncementBatch_countInv es st' now ih
  | res st' es now _ ih => exact processResultBatch_countInv es st' now ih
  | req st' es _ ih => exact processRequestBatch_countInv es st' ih

/-- C10: a record created by the announcement phase carries neither a
results key nor a request_count key; a vendor record without a results key
gains one (holding exactly the new observation) on its first result event;
in every state the scan can reach, a present request_count is at least 1
(it is initialised to 0 only immediately before its first increment); and
the summary substitutes the empty sequence and 0 when the keys are absent. -/
theorem c10_optional_field_lifecycle (st : Registry) (e : Event) (now : Nat)
    (pk : String) (v : VendorRecord) :
    (e.author = some pk → findVendor st pk = none →
      (findVendor (mergeAnnouncement st e now) pk).map
        (fun w => (w.results, w.request_count)) = some (none, none))
    ∧ (findVendor st pk = some v → v.results = none →
      (findVendor (mergeResult st e pk now) pk).map (fun w => w.results)
        = some (some [resultObservation e now]))
    ∧ (∀ st', Reachable st' → ∀ pk' w c, findVendor st' pk' = some w →
        w.request_count = some c → 1 ≤ c)
    ∧ (v.results = none → resultsShown v = 0)
    ∧ (v.request_count = none → requestCountShown v = 0) := by
  refine ⟨?_, ?_, ?_, ?_, ?_⟩
  · intro ha hf
    simp [mergeAnnouncement_fresh st e now pk ha hf]
  · intro hf hr
    simp [mergeResult_found st e pk now v hf, hr]
  · intro st' hreach pk' w c hf hc
    exact reachable_countInv st' hreach pk' w c hf hc
  · intro hr
    simp [resultsShown, hr]
  · intro hc
    simp [requestCountShown, hc]

/-- The registry reached by one announcement batch and one request batch,
used to witness the reachable-state conjunct of C10. -/
def c10Reg : Registry :=
  processRequestBatch (processAnnouncementBatch [] [c1Evt] 5) [c4Evt]

/-- The record for X inside c10Reg: request_count was initialised and then
incremented twice. -/
def c10Rec : VendorRecord :=
  { pubkey := "X"
    npub := "npubX"
    first_seen := 5
    announcements := [⟨"evt1", 42, [], [["d", "svc1"], ["k", "5000"]], 5⟩]
    services := [⟨"svc1", "unknown"⟩]
    last_seen := some 5
    results := none
    request_count := some 2 }

/-- Closed witness for C10 at concrete inputs. -/
theorem c10_witness :
    ((findVendor (mergeAnnouncement [] c1Evt 5) "X").map
        (fun w => (w.results, w.request_count)) = some (none, none))
    ∧ ((findVendor (mergeResult c2Reg goodEvt "X" 6) "X").map
        (fun w => w.results) = some (some [resultObservation goodEvt 6]))
    ∧ (1 : Nat) ≤ 2
    ∧ resultsShown c2Rec = 0
    ∧ requestCountShown c2Rec = 0 := by
  have h := c10_optional_field_lifecycle [] c1Evt 5 "X" c2Rec
  have h2 := c10_optional_field_lifecycle c2Reg goodEvt 6 "X" c2Rec
  have hreach : Reachable c10Reg :=
    Reachable.req _ _ (Reachable.ann _ _ _ Reachable.empty)
  refine ⟨h.1 rfl rfl, h2.2.1 (by decide) (by decide), ?_, ?_, ?_⟩
  · exact h.2.2.1 c10Reg hreach "X" c10Rec 2 (by decide) (by decide)
  · exact h.2.2.2.1 (by decide)
  · exact h.2.2.2.2 (by decide)

end NIP90Scan
